import Mathlib

set_option maxRecDepth 4000

/-!
Shallow embedding of the WARC deduplication pass of `pipeline.py`
(`Deduplicate.process` and `Deduplicate._record_response_to_revisit`),
together with a model of the warcio header API it calls
(`StatusAndHeaders.get_header` / `replace_header` / `remove_header` and
`WARCWriter.create_warc_record` / `write_record`).

A header value is a Python value that is either a string or `None`
(`get_header` returns `None` both for an absent header and for a header
whose stored value is the `None` object), so header values are modelled
as `Option String`.
-/

/-- Case-insensitive header-name comparison uses Python `str.lower()`;
modelled structurally, character by character (header names are ASCII). -/
def String.lowerName (s : String) : String :=
  String.mk (s.data.map Char.toLower)

/-- A Python header value: a string or `None`. -/
abbrev HVal := Option String

/-- The ordered header list of a warcio `StatusAndHeaders` object. -/
abbrev Headers := List (String × HVal)

/-- Model of warcio `StatusAndHeaders.get_header`: return the value of the
first header whose name matches case-insensitively, `None` if there is none. -/
def get_header (hs : Headers) (name : String) : HVal :=
  match hs with
  | [] => none
  | p :: rest => if p.1.lowerName = name.lowerName then p.2 else get_header rest name

/-- Helper for `replace_header`: warcio walks the header list from the end and
replaces the value of the last case-insensitive match, keeping the stored
name's casing; `none` means no match was found. -/
def replaceLastAux (name : String) (value : HVal) : Headers → Option Headers
  | [] => none
  | p :: rest =>
    match replaceLastAux name value rest with
    | some rest' => some (p :: rest')
    | none =>
      if p.1.lowerName = name.lowerName then some ((p.1, value) :: rest) else none

/-- Model of warcio `StatusAndHeaders.replace_header`: replace the value of
the last case-insensitive match, or append `(name, value)` if absent. -/
def replace_header (hs : Headers) (name : String) (value : HVal) : Headers :=
  (replaceLastAux name value hs).getD (hs ++ [(name, value)])

/-- Helper for `remove_header`: delete the last case-insensitive match;
`none` means no match was found. -/
def removeLastAux (name : String) : Headers → Option Headers
  | [] => none
  | p :: rest =>
    match removeLastAux name rest with
    | some rest' => some (p :: rest')
    | none => if p.1.lowerName = name.lowerName then some rest else none

/-- Model of warcio `StatusAndHeaders.remove_header`: delete the last
case-insensitive match, if any. -/
def remove_header (hs : Headers) (name : String) : Headers :=
  (removeLastAux name hs).getD hs

/-- A WARC record as the dedup pass sees it: its WARC header block
(`rec_headers`), its embedded HTTP header block (`http_headers`, opaque to
the pass), and its payload as an opaque byte sequence (`none` when the
record carries no payload block). -/
structure WarcRecord where
  rec_headers : Headers
  http_headers : Option Headers
  payload : Option (List Nat)
deriving DecidableEq, Repr

/-- Header names of a record are pairwise distinct case-insensitively (the
data model is an ordered mapping from header name to value). -/
def NoDupNames (hs : Headers) : Prop :=
  (hs.map (fun p => p.1.lowerName)).Nodup

instance (hs : Headers) : Decidable (NoDupNames hs) := by
  unfold NoDupNames; infer_instance

/- ### Basic lemmas about the header operations -/

theorem replaceLastAux_eq_none_iff (name : String) (value : HVal) (hs : Headers) :
    replaceLastAux name value hs = none ↔
      ∀ p ∈ hs, p.1.lowerName ≠ name.lowerName := by
  induction hs with
  | nil => simp [replaceLastAux]
  | cons p rest ih =>
    simp only [replaceLastAux]
    cases h : replaceLastAux name value rest with
    | some rest' =>
      simp only [reduceCtorEq, false_iff]
      intro hall
      have hnone : replaceLastAux name value rest = none :=
        ih.mpr (fun q hq => hall q (List.mem_cons_of_mem _ hq))
      rw [h] at hnone
      cases hnone
    | none =>
      by_cases hp : p.1.lowerName = name.lowerName
      · rw [if_pos hp]
        simp only [reduceCtorEq, false_iff]
        intro hall
        exact hall p (List.mem_cons_self _ _) hp
      · rw [if_neg hp]
        constructor
        · intro _ q hq
          rcases List.mem_cons.mp hq with rfl | hq2
          · exact hp
          · exact (ih.mp h) q hq2
        · intro _
          rfl

theorem replaceLastAux_names (name : String) (value : HVal) :
    ∀ hs hs', replaceLastAux name value hs = some hs' →
      hs'.map (fun p => p.1) = hs.map (fun p => p.1) := by
  intro hs
  induction hs with
  | nil => intro hs' h; simp [replaceLastAux] at h
  | cons p rest ih =>
    intro hs' h
    simp only [replaceLastAux] at h
    cases haux : replaceLastAux name value rest with
    | some rest' =>
      rw [haux] at h
      cases h
      simp [ih rest' haux]
    | none =>
      rw [haux] at h
      by_cases hp : p.1.lowerName = name.lowerName
      · rw [if_pos hp] at h
        cases h
        simp
      · rw [if_neg hp] at h
        cases h

theorem get_header_append_single_ne (hs : Headers) (name : String) (value : HVal)
    (m : String) (hne : m.lowerName ≠ name.lowerName) :
    get_header (hs ++ [(name, value)]) m = get_header hs m := by
  induction hs with
  | nil =>
    simp only [List.nil_append, get_header]
    rw [if_neg (fun h => hne h.symm)]
  | cons p rest ih =>
    simp only [List.cons_append, get_header]
    by_cases hp : p.1.lowerName = m.lowerName
    · rw [if_pos hp, if_pos hp]
    · rw [if_neg hp, if_neg hp]
      show get_header (rest ++ [(name, value)]) m = get_header rest m
      exact ih

theorem get_header_replaceLastAux_some (name : String) (value : HVal) :
    ∀ hs hs', replaceLastAux name value hs = some hs' →
      ∀ m : String, m.lowerName ≠ name.lowerName →
        get_header hs' m = get_header hs m := by
  intro hs
  induction hs with
  | nil => intro hs' h; simp [replaceLastAux] at h
  | cons p rest ih =>
    intro hs' h m hne
    simp only [replaceLastAux] at h
    cases h2 : replaceLastAux name value rest with
    | some rest' =>
      rw [h2] at h
      cases h
      simp only [get_header]
      by_cases hp : p.1.lowerName = m.lowerName
      · rw [if_pos hp, if_pos hp]
      · rw [if_neg hp, if_neg hp]
        exact ih rest' h2 m hne
    | none =>
      rw [h2] at h
      by_cases hp : p.1.lowerName = name.lowerName
      · rw [if_pos hp] at h
        cases h
        simp only [get_header]
        by_cases hm : p.1.lowerName = m.lowerName
        · exact absurd (hm.symm.trans hp) hne
        · rw [if_neg hm, if_neg hm]
      · rw [if_neg hp] at h
        cases h

theorem get_replace_ne (hs : Headers) (name : String) (value : HVal)
    (m : String) (hne : m.lowerName ≠ name.lowerName) :
    get_header (replace_header hs name value) m = get_header hs m := by
  unfold replace_header
  cases haux : replaceLastAux name value hs with
  | none =>
    simp only [Option.getD_none]
    exact get_header_append_single_ne hs name value m hne
  | some hs' =>
    simp only [Option.getD_some]
    exact get_header_replaceLastAux_some name value hs hs' haux m hne

theorem get_header_eq_none_of_names (hs : Headers) (m : String)
    (h : ∀ p ∈ hs, p.1.lowerName ≠ m.lowerName) : get_header hs m = none := by
  induction hs with
  | nil => rfl
  | cons p rest ih =>
    simp only [get_header]
    rw [if_neg (h p (List.mem_cons_self _ _))]
    exact ih (fun q hq => h q (List.mem_cons_of_mem _ hq))

theorem replaceLastAux_some_exists (name : String) (value : HVal) (hs : Headers)
    (hs' : Headers) (h : replaceLastAux name value hs = some hs') :
    ∃ q ∈ hs, q.1.lowerName = name.lowerName := by
  by_contra hc
  push_neg at hc
  rw [(replaceLastAux_eq_none_iff name value hs).mpr hc] at h
  cases h

theorem get_header_append_single_self (hs : Headers) (name : String) (value : HVal)
    (m : String) (hm : m.lowerName = name.lowerName)
    (hall : ∀ p ∈ hs, p.1.lowerName ≠ name.lowerName) :
    get_header (hs ++ [(name, value)]) m = value := by
  induction hs with
  | nil =>
    simp only [List.nil_append, get_header]
    rw [if_pos hm.symm]
  | cons p rest ih =>
    simp only [List.cons_append, get_header]
    rw [if_neg (fun hcon => (hall p (List.mem_cons_self _ _)) (hcon.trans hm))]
    exact ih (fun q hq => hall q (List.mem_cons_of_mem _ hq))

theorem get_replace_self (hs : Headers) (name : String) (value : HVal)
    (m : String) (hm : m.lowerName = name.lowerName) (hnd : NoDupNames hs) :
    get_header (replace_header hs name value) m = value := by
  unfold replace_header
  cases haux : replaceLastAux name value hs with
  | none =>
    simp only [Option.getD_none]
    exact get_header_append_single_self hs name value m hm
      ((replaceLastAux_eq_none_iff name value hs).mp haux)
  | some hs' =>
    simp only [Option.getD_some]
    induction hs generalizing hs' with
    | nil => simp [replaceLastAux] at haux
    | cons p rest ih =>
      simp only [replaceLastAux] at haux
      rw [NoDupNames, List.map_cons, List.nodup_cons] at hnd
      cases h2 : replaceLastAux name value rest with
      | some rest' =>
        rw [h2] at haux
        cases haux
        obtain ⟨q, hq, hqname⟩ := replaceLastAux_some_exists name value rest rest' h2
        have hpname : p.1.lowerName ≠ name.lowerName := by
          intro hcon
          have hmem : q.1.lowerName ∈ List.map (fun r => r.1.lowerName) rest :=
            List.mem_map_of_mem (fun r => r.1.lowerName) hq
          rw [hqname, ← hcon] at hmem
          exact hnd.1 hmem
        simp only [get_header]
        rw [if_neg (fun hcon => hpname (hcon.trans hm))]
        exact ih hnd.2 rest' h2
      | none =>
        rw [h2] at haux
        by_cases hp : p.1.lowerName = name.lowerName
        · rw [if_pos hp] at haux
          cases haux
          simp only [get_header]
          rw [if_pos (hp.trans hm.symm)]
        · rw [if_neg hp] at haux
          cases haux

theorem NoDupNames_replace (hs : Headers) (name : String) (value : HVal)
    (hnd : NoDupNames hs) : NoDupNames (replace_header hs name value) := by
  unfold replace_header
  cases haux : replaceLastAux name value hs with
  | none =>
    simp only [Option.getD_none]
    rw [NoDupNames, List.map_append, List.nodup_append]
    refine ⟨hnd, List.nodup_singleton _, ?_⟩
    intro a ha hb
    simp only [List.map_cons, List.map_nil, List.mem_singleton] at hb
    obtain ⟨q, hq, hqa⟩ := List.mem_map.mp ha
    exact ((replaceLastAux_eq_none_iff name value hs).mp haux) q hq (hqa.trans hb)
  | some hs' =>
    simp only [Option.getD_some]
    have hnames := replaceLastAux_names name value hs hs' haux
    rw [NoDupNames] at hnd ⊢
    have key : hs'.map (fun p => p.1.lowerName) = hs.map (fun p => p.1.lowerName) := by
      have hcast := congrArg (List.map String.lowerName) hnames
      simpa only [List.map_map, Function.comp] using hcast
    rw [key]
    exact hnd

theorem removeLastAux_eq_none_iff (name : String) (hs : Headers) :
    removeLastAux name hs = none ↔ ∀ p ∈ hs, p.1.lowerName ≠ name.lowerName := by
  induction hs with
  | nil => simp [removeLastAux]
  | cons p rest ih =>
    simp only [removeLastAux]
    cases h : removeLastAux name rest with
    | some rest' =>
      simp only [reduceCtorEq, false_iff]
      intro hall
      have hnone : removeLastAux name rest = none :=
        ih.mpr (fun q hq => hall q (List.mem_cons_of_mem _ hq))
      rw [h] at hnone
      cases hnone
    | none =>
      by_cases hp : p.1.lowerName = name.lowerName
      · rw [if_pos hp]
        simp only [reduceCtorEq, false_iff]
        intro hall
        exact hall p (List.mem_cons_self _ _) hp
      · rw [if_neg hp]
        constructor
        · intro _ q hq
          rcases List.mem_cons.mp hq with rfl | hq2
          · exact hp
          · exact (ih.mp h) q hq2
        · intro _
          rfl

theorem removeLastAux_sublist (name : String) :
    ∀ hs hs', removeLastAux name hs = some hs' → hs'.Sublist hs := by
  intro hs
  induction hs with
  | nil => intro hs' h; simp [removeLastAux] at h
  | cons p rest ih =>
    intro hs' h
    simp only [removeLastAux] at h
    cases h2 : removeLastAux name rest with
    | some rest' =>
      rw [h2] at h
      cases h
      exact List.Sublist.cons₂ p (ih rest' h2)
    | none =>
      rw [h2] at h
      by_cases hp : p.1.lowerName = name.lowerName
      · rw [if_pos hp] at h
        cases h
        exact List.sublist_cons_self p rest
      · rw [if_neg hp] at h
        cases h

theorem get_remove_ne (hs : Headers) (name : String)
    (m : String) (hne : m.lowerName ≠ name.lowerName) :
    get_header (remove_header hs name) m = get_header hs m := by
  unfold remove_header
  cases haux : removeLastAux name hs with
  | none => simp
  | some hs' =>
    simp only [Option.getD_some]
    induction hs generalizing hs' with
    | nil => simp [removeLastAux] at haux
    | cons p rest ih =>
      simp only [removeLastAux] at haux
      cases h2 : removeLastAux name rest with
      | some rest' =>
        rw [h2] at haux
        cases haux
        simp only [get_header]
        by_cases hp : p.1.lowerName = m.lowerName
        · rw [if_pos hp, if_pos hp]
        · rw [if_neg hp, if_neg hp]
          exact ih rest' h2
      | none =>
        rw [h2] at haux
        by_cases hp : p.1.lowerName = name.lowerName
        · rw [if_pos hp] at haux
          cases haux
          simp only [get_header]
          rw [if_neg (fun hcon => hne (hcon.symm.trans hp))]
        · rw [if_neg hp] at haux
          cases haux

theorem removeLastAux_some_exists (name : String) (hs : Headers)
    (hs' : Headers) (h : removeLastAux name hs = some hs') :
    ∃ q ∈ hs, q.1.lowerName = name.lowerName := by
  by_contra hc
  push_neg at hc
  rw [(removeLastAux_eq_none_iff name hs).mpr hc] at h
  cases h

theorem get_remove_self (hs : Headers) (name : String)
    (m : String) (hm : m.lowerName = name.lowerName) (hnd : NoDupNames hs) :
    get_header (remove_header hs name) m = none := by
  unfold remove_header
  cases haux : removeLastAux name hs with
  | none =>
    simp only [Option.getD_none]
    exact get_header_eq_none_of_names hs m
      (fun p hp hcon => ((removeLastAux_eq_none_iff name hs).mp haux) p hp (hcon.trans hm))
  | some hs' =>
    simp only [Option.getD_some]
    induction hs generalizing hs' with
    | nil => simp [removeLastAux] at haux
    | cons p rest ih =>
      simp only [removeLastAux] at haux
      rw [NoDupNames, List.map_cons, List.nodup_cons] at hnd
      cases h2 : removeLastAux name rest with
      | some rest' =>
        rw [h2] at haux
        cases haux
        obtain ⟨q, hq, hqname⟩ := removeLastAux_some_exists name rest rest' h2
        have hpname : p.1.lowerName ≠ name.lowerName := by
          intro hcon
          have hmem : q.1.lowerName ∈ List.map (fun r => r.1.lowerName) rest :=
            List.mem_map_of_mem (fun r => r.1.lowerName) hq
          rw [hqname, ← hcon] at hmem
          exact hnd.1 hmem
        simp only [get_header]
        rw [if_neg (fun hcon => hpname (hcon.trans hm))]
        exact ih hnd.2 rest' h2
      | none =>
        rw [h2] at haux
        by_cases hp : p.1.lowerName = name.lowerName
        · rw [if_pos hp] at haux
          cases haux
          exact get_header_eq_none_of_names rest m
            (fun r hr hcon => ((removeLastAux_eq_none_iff name rest).mp h2) r hr (hcon.trans hm))
        · rw [if_neg hp] at haux
          cases haux

theorem NoDupNames_remove (hs : Headers) (name : String)
    (hnd : NoDupNames hs) : NoDupNames (remove_header hs name) := by
  unfold remove_header
  cases haux : removeLastAux name hs with
  | none => simpa using hnd
  | some hs' =>
    simp only [Option.getD_some]
    exact List.Nodup.sublist (List.Sublist.map _ (removeLastAux_sublist name hs hs' haux)) hnd

/- ### The target-URI unwrap (lines 207-211 of pipeline.py) -/

/-- Model of Python `url.startswith('<')`: the first character is `'<'`. -/
def startsLT (url : String) : Bool :=
  match url.data with
  | '<' :: _ => true
  | _ => false

/-- Model of `re.search('^<(.+)>$', url)` returning `group(1)`, `none` when
the search finds no match.  The pattern anchors at the start, `.` does not
match a newline, `(.+)` is greedy and nonempty, and `$` matches at the end
of the string or just before a single trailing newline (Python semantics
without MULTILINE/DOTALL).  So the match succeeds exactly on
`'<' ++ s ++ '>'` or `'<' ++ s ++ '>' ++ '\n'` with `s` nonempty and
newline-free, the group being the longest such `s` (the closing `'>'` is
the last possible one). -/
def reWrapGroup (url : String) : Option String :=
  match url.data with
  | '<' :: t =>
    if t.getLast? = some '>' ∧ t.dropLast ≠ [] ∧ '\n' ∉ t.dropLast then
      some (String.mk t.dropLast)
    else if t.getLast? = some '\n' ∧ t.dropLast.getLast? = some '>' ∧
        t.dropLast.dropLast ≠ [] ∧ '\n' ∉ t.dropLast.dropLast then
      some (String.mk t.dropLast.dropLast)
    else none
  | _ => none

/-- The unwrap applied to one target-URI value, as in the loop body:
left alone when the value does not start with `'<'`, otherwise the regex
group; `none` models the uncaught `AttributeError` that
`re.search(...).group(1)` raises when the search returned `None`. -/
def unwrap_url (url : String) : Option String :=
  if startsLT url then reWrapGroup url else some url

/-- The unwrap step applied to a whole record (lines 207-211): read
`WARC-Target-URI`, and when it starts with `'<'` replace it by the regex
group; `none` models the uncaught exception. -/
def unwrapRecord (r : WarcRecord) : Option WarcRecord :=
  match get_header r.rec_headers "WARC-Target-URI" with
  | none => some r
  | some url =>
    if startsLT url then
      match reWrapGroup url with
      | none => none
      | some u =>
        some { r with rec_headers := replace_header r.rec_headers "WARC-Target-URI" (some u) }
    else some r

/- ### The digest index (the `digests` dict of `Deduplicate.process`) -/

/-- The digest index: a Python dict mapping a payload-digest value (which
may be `None`, since `None` is a valid dict key) to the
`(WARC-Record-ID, WARC-Date, WARC-Target-URI)` triple of the first record
seen with that digest.  Entries are appended in insertion order. -/
abbrev Digests := List (HVal × (HVal × HVal × HVal))

/-- Model of `digest in digests` / `digests[digest]`: the entry stored
under key `k`, if any. -/
def digestsGet (ds : Digests) (k : HVal) : Option (HVal × HVal × HVal) :=
  match ds with
  | [] => none
  | p :: rest => if p.1 = k then some p.2 else digestsGet rest k

/-- Membership of a key in the digest index. -/
def digestsMem (ds : Digests) (k : HVal) : Bool :=
  match ds with
  | [] => false
  | p :: rest => p.1 = k || digestsMem rest k

/- ### Revisit construction (`Deduplicate._record_response_to_revisit`) -/

/-- Model of `_record_response_to_revisit` combined with warcio
`create_warc_record`: the original record's header set is mutated in place
(refers-to triple, type, truncated, profile set; block digest and content
length removed) and handed to `create_warc_record` as `warc_headers`, so
warcio keeps it verbatim (no fresh `WARC-Record-ID` is generated on a
record built from an explicit `warc_headers`); the new record carries the
original's `http_headers` and no payload.  warcio's `ensure_digest` is a
no-op on the headers whenever a `WARC-Payload-Digest` is already present
and is not modelled; no claim concerns that header on constructed
records. -/
def record_response_to_revisit (record : WarcRecord)
    (duplicate : HVal × HVal × HVal) : WarcRecord :=
  let warc_headers := record.rec_headers
  let warc_headers := replace_header warc_headers "WARC-Refers-To" duplicate.1
  let warc_headers := replace_header warc_headers "WARC-Refers-To-Date" duplicate.2.1
  let warc_headers := replace_header warc_headers "WARC-Refers-To-Target-URI" duplicate.2.2
  let warc_headers := replace_header warc_headers "WARC-Type" (some "revisit")
  let warc_headers := replace_header warc_headers "WARC-Truncated" (some "length")
  let warc_headers := replace_header warc_headers "WARC-Profile"
    (some "http://netpreserve.org/warc/1.0/revisit/identical-payload-digest")
  let warc_headers := remove_header warc_headers "WARC-Block-Digest"
  let warc_headers := remove_header warc_headers "Content-Length"
  { rec_headers := warc_headers, http_headers := record.http_headers, payload := none }

/-- A record classified as a response by the loop (the loop's test
`get_header('WARC-Type') == 'response'`). -/
def isResponse (r : WarcRecord) : Bool :=
  get_header r.rec_headers "WARC-Type" = some "response"

/-- The `digest` variable of the loop body:
`get_header('WARC-Payload-Digest')`. -/
def digestOf (r : WarcRecord) : HVal :=
  get_header r.rec_headers "WARC-Payload-Digest"

/-- The `(WARC-Record-ID, WARC-Date, WARC-Target-URI)` triple the loop
stores in the digest index for a (already unwrapped) record. -/
def digestEntry (r : WarcRecord) : HVal × HVal × HVal :=
  (get_header r.rec_headers "WARC-Record-ID",
   get_header r.rec_headers "WARC-Date",
   get_header r.rec_headers "WARC-Target-URI")

/- ### The per-record loop body of `Deduplicate.process` (lines 206-235) -/

/-- One iteration of the `for record in ArchiveIterator(f_in)` loop:
unwrap the target URI, then classify on `WARC-Type`.  Returns the record
handed to `writer.write_record` together with the updated digest index, or
`none` when the iteration raises (the malformed-bracket `AttributeError`). -/
def processRecord (output_filename : String) (digests : Digests)
    (record : WarcRecord) : Option (WarcRecord × Digests) :=
  match unwrapRecord record with
  | none => none
  | some record =>
    if isResponse record then
      match digestsGet digests (digestOf record) with
      | some dup => some (record_response_to_revisit record dup, digests)
      | none => some (record, digests ++ [(digestOf record, digestEntry record)])
    else if get_header record.rec_headers "WARC-Type" = some "warcinfo" then
      some ({ record with
        rec_headers := replace_header record.rec_headers "WARC-Filename" (some output_filename) },
        digests)
    else
      some (record, digests)

/-- The whole loop from a given index state: the list of records written
to the output in order, and whether the loop ran to completion (`false`
models the uncaught exception aborting the pass; records written before
the failing iteration are kept, the failing record and everything after it
are not written). -/
def processFrom (output_filename : String) (digests : Digests) :
    List WarcRecord → List WarcRecord × Bool
  | [] => ([], true)
  | r :: rs =>
    match processRecord output_filename digests r with
    | none => ([], false)
    | some (w, digests') =>
      let rest := processFrom output_filename digests' rs
      (w :: rest.1, rest.2)

/-- The whole pass `Deduplicate.process`: the digest index starts empty. -/
def process (output_filename : String) (records : List WarcRecord) :
    List WarcRecord × Bool :=
  processFrom output_filename [] records

/-- The digest index reached after processing a list of records, `none`
when an iteration raised. -/
def digestsAfter (output_filename : String) (digests : Digests) :
    List WarcRecord → Option Digests
  | [] => some digests
  | r :: rs =>
    match processRecord output_filename digests r with
    | none => none
    | some (_, digests') => digestsAfter output_filename digests' rs


/-- Some response with digest-index key `k` occurs in the list. -/
def seenDigest (rs : List WarcRecord) (k : HVal) : Bool :=
  rs.any (fun r => isResponse r && digestOf r = k)

/-- The first response record carrying digest-index key `k`. -/
def firstResponseWith (rs : List WarcRecord) (k : HVal) : Option WarcRecord :=
  rs.find? (fun r => isResponse r && digestOf r = k)

/- ### Lemmas about the unwrap step -/

theorem unwrapRecord_cases (r r' : WarcRecord) (h : unwrapRecord r = some r') :
    r' = r ∨
      ∃ url u, get_header r.rec_headers "WARC-Target-URI" = some url ∧
        startsLT url = true ∧ reWrapGroup url = some u ∧
        r' = { r with
          rec_headers := replace_header r.rec_headers "WARC-Target-URI" (some u) } := by
  unfold unwrapRecord at h
  split at h
  · cases h
    exact Or.inl rfl
  · rename_i url heq
    split at h
    · rename_i hlt
      split at h
      · cases h
      · rename_i u hgrp
        cases h
        exact Or.inr ⟨url, u, heq, hlt, hgrp, rfl⟩
    · cases h
      exact Or.inl rfl

theorem unwrapRecord_get_ne (r r' : WarcRecord) (h : unwrapRecord r = some r')
    (m : String) (hne : m.lowerName ≠ "warc-target-uri") :
    get_header r'.rec_headers m = get_header r.rec_headers m := by
  rcases unwrapRecord_cases r r' h with rfl | ⟨url, u, _, _, _, rfl⟩
  · rfl
  · have hlow : ("WARC-Target-URI").lowerName = "warc-target-uri" := by decide
    exact get_replace_ne r.rec_headers "WARC-Target-URI" (some u) m (hlow ▸ hne)

theorem unwrapRecord_isResponse (r r' : WarcRecord) (h : unwrapRecord r = some r') :
    isResponse r' = isResponse r := by
  unfold isResponse
  rw [unwrapRecord_get_ne r r' h "WARC-Type" (by decide)]

theorem unwrapRecord_digestOf (r r' : WarcRecord) (h : unwrapRecord r = some r') :
    digestOf r' = digestOf r := by
  unfold digestOf
  rw [unwrapRecord_get_ne r r' h "WARC-Payload-Digest" (by decide)]

theorem unwrapRecord_payload (r r' : WarcRecord) (h : unwrapRecord r = some r') :
    r'.payload = r.payload ∧ r'.http_headers = r.http_headers := by
  rcases unwrapRecord_cases r r' h with rfl | ⟨url, u, _, _, _, rfl⟩
  · exact ⟨rfl, rfl⟩
  · exact ⟨rfl, rfl⟩

theorem unwrapRecord_nodup (r r' : WarcRecord) (h : unwrapRecord r = some r')
    (hnd : NoDupNames r.rec_headers) : NoDupNames r'.rec_headers := by
  rcases unwrapRecord_cases r r' h with rfl | ⟨url, u, _, _, _, rfl⟩
  · exact hnd
  · exact NoDupNames_replace _ _ _ hnd

theorem unwrapRecord_fails_of_bad_uri (r : WarcRecord) (url : String)
    (huri : get_header r.rec_headers "WARC-Target-URI" = some url)
    (hlt : startsLT url = true) (hgrp : reWrapGroup url = none) :
    unwrapRecord r = none := by
  simp [unwrapRecord, huri, hlt, hgrp]

/- ### Lemmas about the digest index -/

theorem digestsGet_eq_none_iff (ds : Digests) (k : HVal) :
    digestsGet ds k = none ↔ digestsMem ds k = false := by
  induction ds with
  | nil => simp [digestsGet, digestsMem]
  | cons p rest ih =>
    simp only [digestsGet, digestsMem]
    by_cases hp : p.1 = k
    · rw [if_pos hp]
      simp [hp]
    · rw [if_neg hp]
      simp only [Bool.or_eq_false_iff, decide_eq_false_iff_not]
      rw [ih]
      constructor
      · intro hm; exact ⟨hp, hm⟩
      · intro hm; exact hm.2

theorem digestsMem_of_get_some (ds : Digests) (k : HVal) (e : HVal × HVal × HVal)
    (h : digestsGet ds k = some e) : digestsMem ds k = true := by
  by_contra hc
  rw [(digestsGet_eq_none_iff ds k).mpr (Bool.eq_false_iff.mpr hc)] at h
  cases h

theorem digestsGet_append_of_some (ds : Digests) (l : Digests) (k : HVal)
    (e : HVal × HVal × HVal) (h : digestsGet ds k = some e) :
    digestsGet (ds ++ l) k = some e := by
  induction ds with
  | nil => cases h
  | cons p rest ih =>
    simp only [digestsGet] at h ⊢
    by_cases hp : p.1 = k
    · rw [if_pos hp] at h ⊢; exact h
    · rw [if_neg hp] at h ⊢; exact ih h

theorem digestsGet_append_self (ds : Digests) (k : HVal) (e : HVal × HVal × HVal)
    (h : digestsGet ds k = none) : digestsGet (ds ++ [(k, e)]) k = some e := by
  induction ds with
  | nil => simp [digestsGet]
  | cons p rest ih =>
    simp only [digestsGet] at h ⊢
    by_cases hp : p.1 = k
    · rw [if_pos hp] at h; cases h
    · rw [if_neg hp] at h ⊢; exact ih h

theorem digestsMem_append_single (ds : Digests) (p : HVal × (HVal × HVal × HVal))
    (k : HVal) :
    digestsMem (ds ++ [p]) k = (digestsMem ds k || decide (p.1 = k)) := by
  induction ds with
  | nil => simp [digestsMem]
  | cons q rest ih =>
    simp only [List.cons_append, digestsMem]
    show (decide (q.1 = k) || digestsMem (rest ++ [p]) k) = _
    rw [ih, Bool.or_assoc]

/- ### Lemmas about the loop -/

theorem processFrom_nil (ofn : String) (ds : Digests) :
    processFrom ofn ds [] = ([], true) := rfl

theorem processFrom_cons (ofn : String) (ds : Digests) (r : WarcRecord)
    (rs : List WarcRecord) (w : WarcRecord) (ds' : Digests)
    (h : processRecord ofn ds r = some (w, ds')) :
    processFrom ofn ds (r :: rs)
      = (w :: (processFrom ofn ds' rs).1, (processFrom ofn ds' rs).2) := by
  simp [processFrom, h]

theorem processFrom_cons_fail (ofn : String) (ds : Digests) (r : WarcRecord)
    (rs : List WarcRecord) (h : processRecord ofn ds r = none) :
    processFrom ofn ds (r :: rs) = ([], false) := by
  simp [processFrom, h]

theorem digestsAfter_cons (ofn : String) (ds : Digests) (r : WarcRecord)
    (rs : List WarcRecord) (w : WarcRecord) (ds' : Digests)
    (h : processRecord ofn ds r = some (w, ds')) :
    digestsAfter ofn ds (r :: rs) = digestsAfter ofn ds' rs := by
  simp [digestsAfter, h]

theorem processFrom_length (ofn : String) :
    ∀ (rs : List WarcRecord) (ds : Digests),
      (processFrom ofn ds rs).2 = true →
        (processFrom ofn ds rs).1.length = rs.length := by
  intro rs
  induction rs with
  | nil => intro ds _; rfl
  | cons r rest ih =>
    intro ds hok
    cases h : processRecord ofn ds r with
    | none =>
      rw [processFrom_cons_fail ofn ds r rest h] at hok
      cases hok
    | some p =>
      rw [processFrom_cons ofn ds r rest p.1 p.2 h] at hok ⊢
      simp only [List.length_cons]
      rw [ih p.2 hok]

/- ### Case analysis of one loop iteration -/

theorem processRecord_cases (ofn : String) (ds : Digests) (r : WarcRecord)
    (w : WarcRecord) (ds' : Digests) (h : processRecord ofn ds r = some (w, ds')) :
    ∃ r0, unwrapRecord r = some r0 ∧
      ((isResponse r0 = true ∧
         ((∃ dup, digestsGet ds (digestOf r0) = some dup ∧
             w = record_response_to_revisit r0 dup ∧ ds' = ds) ∨
          (digestsGet ds (digestOf r0) = none ∧ w = r0 ∧
             ds' = ds ++ [(digestOf r0, digestEntry r0)]))) ∨
       (isResponse r0 = false ∧ ds' = ds ∧
         ((get_header r0.rec_headers "WARC-Type" = some "warcinfo" ∧
            w = { r0 with
              rec_headers := replace_header r0.rec_headers "WARC-Filename" (some ofn) }) ∨
          (get_header r0.rec_headers "WARC-Type" ≠ some "warcinfo" ∧ w = r0)))) := by
  unfold processRecord at h
  split at h
  · cases h
  · rename_i r0 hunwrap
    refine ⟨r0, hunwrap, ?_⟩
    split at h
    · rename_i hresp
      split at h
      · rename_i dup hdup
        cases h
        exact Or.inl ⟨hresp, Or.inl ⟨dup, hdup, rfl, rfl⟩⟩
      · rename_i hdup
        cases h
        exact Or.inl ⟨hresp, Or.inr ⟨hdup, rfl, rfl⟩⟩
    · rename_i hresp
      split at h
      · rename_i hwi
        cases h
        exact Or.inr ⟨Bool.eq_false_iff.mpr hresp, rfl, Or.inl ⟨hwi, rfl⟩⟩
      · rename_i hwi
        cases h
        exact Or.inr ⟨Bool.eq_false_iff.mpr hresp, rfl, Or.inr ⟨hwi, rfl⟩⟩

theorem processRecord_mem (ofn : String) (ds : Digests) (r : WarcRecord)
    (w : WarcRecord) (ds' : Digests) (h : processRecord ofn ds r = some (w, ds'))
    (k : HVal) :
    digestsMem ds' k = (digestsMem ds k || (isResponse r && decide (digestOf r = k))) := by
  obtain ⟨r0, hunwrap, hcase⟩ := processRecord_cases ofn ds r w ds' h
  have hresp0 : isResponse r0 = isResponse r := unwrapRecord_isResponse r r0 hunwrap
  have hdig0 : digestOf r0 = digestOf r := unwrapRecord_digestOf r r0 hunwrap
  rcases hcase with ⟨hresp, hsub⟩ | ⟨hresp, hds, _⟩
  · rcases hsub with ⟨dup, hdup, _, hds⟩ | ⟨hdup, _, hds⟩
    · rw [hds, ← hresp0, hresp, Bool.true_and]
      by_cases hk : digestOf r = k
      · rw [← hk, ← hdig0]
        rw [digestsMem_of_get_some ds (digestOf r0) dup hdup]
        simp
      · simp [hk]
    · rw [hds, digestsMem_append_single, ← hresp0, hresp, Bool.true_and, hdig0]
  · rw [hds, ← hresp0, hresp, Bool.false_and, Bool.or_false]

theorem digestsAfter_mem (ofn : String) :
    ∀ (rs : List WarcRecord) (ds ds' : Digests),
      digestsAfter ofn ds rs = some ds' →
        ∀ k, digestsMem ds' k = (digestsMem ds k || seenDigest rs k) := by
  intro rs
  induction rs with
  | nil =>
    intro ds ds' h k
    cases h
    simp [seenDigest]
  | cons r rest ih =>
    intro ds ds' h k
    unfold digestsAfter at h
    cases hpr : processRecord ofn ds r with
    | none => rw [hpr] at h; cases h
    | some p =>
      rw [hpr] at h
      rw [ih p.2 ds' h k,
        processRecord_mem ofn ds r p.1 p.2 (by rw [hpr]) k]
      have hseen : seenDigest (r :: rest) k
          = ((isResponse r && decide (digestOf r = k)) || seenDigest rest k) := by
        simp [seenDigest]
      rw [hseen, Bool.or_assoc]

theorem processRecord_get_mono (ofn : String) (ds : Digests) (r : WarcRecord)
    (w : WarcRecord) (ds' : Digests) (h : processRecord ofn ds r = some (w, ds'))
    (k : HVal) (e : HVal × HVal × HVal) (hk : digestsGet ds k = some e) :
    digestsGet ds' k = some e := by
  obtain ⟨r0, hunwrap, hcase⟩ := processRecord_cases ofn ds r w ds' h
  rcases hcase with ⟨_, hsub⟩ | ⟨_, hds, _⟩
  · rcases hsub with ⟨dup, _, _, rfl⟩ | ⟨_, _, rfl⟩
    · exact hk
    · exact digestsGet_append_of_some ds _ k e hk
  · rw [hds]; exact hk

theorem digestsAfter_get_mono (ofn : String) :
    ∀ (rs : List WarcRecord) (ds ds' : Digests),
      digestsAfter ofn ds rs = some ds' →
        ∀ k e, digestsGet ds k = some e → digestsGet ds' k = some e := by
  intro rs
  induction rs with
  | nil => intro ds ds' h k e hk; cases h; exact hk
  | cons r rest ih =>
    intro ds ds' h k e hk
    unfold digestsAfter at h
    cases hpr : processRecord ofn ds r with
    | none => rw [hpr] at h; cases h
    | some p =>
      rw [hpr] at h
      exact ih p.2 ds' h k e
        (processRecord_get_mono ofn ds r p.1 p.2 (by rw [hpr]) k e hk)

/- ### The per-index characterization of the single forward pass -/

theorem processFrom_index (ofn : String) :
    ∀ (rs : List WarcRecord) (ds : Digests),
      (processFrom ofn ds rs).2 = true →
        ∀ (i : Nat) (r : WarcRecord), rs.get? i = some r →
          ∃ dsi w dsi', digestsAfter ofn ds (rs.take i) = some dsi ∧
            processRecord ofn dsi r = some (w, dsi') ∧
            (processFrom ofn ds rs).1.get? i = some w ∧
            digestsAfter ofn ds (rs.take (i + 1)) = some dsi' := by
  intro rs
  induction rs with
  | nil =>
    intro ds _ i r hget
    cases hget
  | cons r0 rest ih =>
    intro ds hok i r hget
    cases hpr : processRecord ofn ds r0 with
    | none =>
      rw [processFrom_cons_fail ofn ds r0 rest hpr] at hok
      cases hok
    | some p =>
      have hcons := processFrom_cons ofn ds r0 rest p.1 p.2 (by rw [hpr])
      rw [hcons] at hok
      cases i with
      | zero =>
        have hr : r = r0 := by
          rw [List.get?_cons_zero] at hget
          cases hget
          rfl
        refine ⟨ds, p.1, p.2, ?_, ?_, ?_, ?_⟩
        · rfl
        · rw [hr, hpr]
        · rw [hcons, List.get?_cons_zero]
        · show digestsAfter ofn ds [r0] = some p.2
          unfold digestsAfter
          rw [hpr]
          rfl
      | succ n =>
        rw [List.get?_cons_succ] at hget
        obtain ⟨dsi, w, dsi', h1, h2, h3, h4⟩ := ih p.2 hok n r hget
        refine ⟨dsi, w, dsi', ?_, h2, ?_, ?_⟩
        · rw [List.take_succ_cons]
          unfold digestsAfter
          rw [hpr]
          exact h1
        · rw [hcons, List.get?_cons_succ]
          exact h3
        · rw [List.take_succ_cons]
          unfold digestsAfter
          rw [hpr]
          exact h4

/- ### What the index holds for a fresh key after a run -/

theorem digestsAfter_get_new (ofn : String) :
    ∀ (rs : List WarcRecord) (ds ds' : Digests),
      digestsAfter ofn ds rs = some ds' →
        ∀ k, digestsGet ds k = none →
          (firstResponseWith rs k = none → digestsGet ds' k = none) ∧
          (∀ r, firstResponseWith rs k = some r →
            ∃ r0, unwrapRecord r = some r0 ∧
              digestsGet ds' k = some (digestEntry r0)) := by
  intro rs
  induction rs with
  | nil =>
    intro ds ds' h k hknone
    cases h
    constructor
    · intro _; exact hknone
    · intro r hr
      cases hr
  | cons r0 rest ih =>
    intro ds ds' h k hknone
    unfold digestsAfter at h
    cases hpr : processRecord ofn ds r0 with
    | none => rw [hpr] at h; cases h
    | some p =>
      rw [hpr] at h
      by_cases hmatch : (isResponse r0 && decide (digestOf r0 = k)) = true
      · have hfirst : firstResponseWith (r0 :: rest) k = some r0 := by
          unfold firstResponseWith
          exact List.find?_cons_of_pos rest hmatch
        have hboth := hmatch
        rw [Bool.and_eq_true] at hboth
        have hresp : isResponse r0 = true := hboth.1
        have hdig : digestOf r0 = k := of_decide_eq_true hboth.2
        constructor
        · intro hnone
          rw [hfirst] at hnone
          cases hnone
        · intro r hr
          rw [hfirst] at hr
          have hrr : r = r0 := by cases hr; rfl
          obtain ⟨r0', hunwrap, hcase⟩ := processRecord_cases ofn ds r0 p.1 p.2 (by rw [hpr])
          have hresp0 : isResponse r0' = true :=
            (unwrapRecord_isResponse r0 r0' hunwrap).trans hresp
          have hdig0 : digestOf r0' = k :=
            (unwrapRecord_digestOf r0 r0' hunwrap).trans hdig
          rcases hcase with ⟨_, hsub⟩ | ⟨hfalse, _, _⟩
          · rcases hsub with ⟨dup, hdup, _, _⟩ | ⟨_, _, hds1⟩
            · rw [hdig0, hknone] at hdup
              cases hdup
            · refine ⟨r0', by rw [hrr]; exact hunwrap, ?_⟩
              have hstep : digestsGet p.2 k = some (digestEntry r0') := by
                rw [hds1, ← hdig0]
                exact digestsGet_append_self ds (digestOf r0') (digestEntry r0')
                  (by rw [hdig0]; exact hknone)
              exact digestsAfter_get_mono ofn rest p.2 ds' h k (digestEntry r0') hstep
          · rw [hresp0] at hfalse
            cases hfalse
      · have hmatch' : (isResponse r0 && decide (digestOf r0 = k)) = false :=
          Bool.eq_false_iff.mpr hmatch
        have hfirst : firstResponseWith (r0 :: rest) k = firstResponseWith rest k := by
          unfold firstResponseWith
          exact List.find?_cons_of_neg rest hmatch
        have hmem : digestsGet p.2 k = none := by
          rw [digestsGet_eq_none_iff,
            processRecord_mem ofn ds r0 p.1 p.2 (by rw [hpr]) k,
            (digestsGet_eq_none_iff ds k).mp hknone, hmatch']
          rfl
        have hrest := ih p.2 ds' h k hmem
        rw [hfirst]
        exact hrest

/- ### Headers of a constructed revisit record -/

theorem revisit_headers (r : WarcRecord) (dup : HVal × HVal × HVal)
    (hnd : NoDupNames r.rec_headers) :
    get_header (record_response_to_revisit r dup).rec_headers "WARC-Refers-To" = dup.1 ∧
    get_header (record_response_to_revisit r dup).rec_headers "WARC-Refers-To-Date" = dup.2.1 ∧
    get_header (record_response_to_revisit r dup).rec_headers "WARC-Refers-To-Target-URI" = dup.2.2 ∧
    get_header (record_response_to_revisit r dup).rec_headers "WARC-Type" = some "revisit" ∧
    get_header (record_response_to_revisit r dup).rec_headers "WARC-Truncated" = some "length" ∧
    get_header (record_response_to_revisit r dup).rec_headers "WARC-Profile"
      = some "http://netpreserve.org/warc/1.0/revisit/identical-payload-digest" ∧
    get_header (record_response_to_revisit r dup).rec_headers "WARC-Block-Digest" = none ∧
    get_header (record_response_to_revisit r dup).rec_headers "Content-Length" = none := by
  have n1 := NoDupNames_replace _ "WARC-Refers-To" dup.1 hnd
  have n2 := NoDupNames_replace _ "WARC-Refers-To-Date" dup.2.1 n1
  have n3 := NoDupNames_replace _ "WARC-Refers-To-Target-URI" dup.2.2 n2
  have n4 := NoDupNames_replace _ "WARC-Type" (some "revisit") n3
  have n5 := NoDupNames_replace _ "WARC-Truncated" (some "length") n4
  have n6 := NoDupNames_replace _ "WARC-Profile"
    (some "http://netpreserve.org/warc/1.0/revisit/identical-payload-digest") n5
  have n7 := NoDupNames_remove _ "WARC-Block-Digest" n6
  refine ⟨?_, ?_, ?_, ?_, ?_, ?_, ?_, ?_⟩ <;>
    simp +decide [record_response_to_revisit, get_replace_ne, get_replace_self,
      get_remove_ne, get_remove_self, hnd, n1, n2, n3, n4, n5, n6, n7]

/- ### WARC-Type of the record written for a response -/

theorem processRecord_response_type (ofn : String) (ds : Digests) (r : WarcRecord)
    (w : WarcRecord) (ds' : Digests) (h : processRecord ofn ds r = some (w, ds'))
    (hnd : NoDupNames r.rec_headers) (hresp : isResponse r = true) :
    get_header w.rec_headers "WARC-Type" =
      (if digestsMem ds (digestOf r) = true then some "revisit" else some "response") := by
  obtain ⟨r0, hunwrap, hcase⟩ := processRecord_cases ofn ds r w ds' h
  have hresp0 : isResponse r0 = true := (unwrapRecord_isResponse r r0 hunwrap).trans hresp
  have hdig0 : digestOf r0 = digestOf r := unwrapRecord_digestOf r r0 hunwrap
  have hnd0 : NoDupNames r0.rec_headers := unwrapRecord_nodup r r0 hunwrap hnd
  rcases hcase with ⟨_, hsub⟩ | ⟨hfalse, _, _⟩
  · rcases hsub with ⟨dup, hdup, hw, _⟩ | ⟨hdup, hw, _⟩
    · have hmem : digestsMem ds (digestOf r) = true := by
        rw [← hdig0]
        exact digestsMem_of_get_some ds (digestOf r0) dup hdup
      rw [hw, if_pos hmem]
      exact (revisit_headers r0 dup hnd0).2.2.2.1
    · have hmem : digestsMem ds (digestOf r) = false := by
        rw [← hdig0]
        exact (digestsGet_eq_none_iff ds (digestOf r0)).mp hdup
      rw [hw, if_neg (by rw [hmem]; exact Bool.false_ne_true)]
      exact of_decide_eq_true hresp0
  · rw [hresp0] at hfalse
    cases hfalse

/- ### Concrete sample records used by the evidence theorems -/

/-- A response whose payload digest is `sha1:AAA`. -/
def respA1 : WarcRecord :=
  { rec_headers := [("WARC-Type", some "response"),
                    ("WARC-Record-ID", some "<urn:uuid:0001>"),
                    ("WARC-Date", some "2019-06-22T01:00:00Z"),
                    ("WARC-Target-URI", some "http://example.com/1"),
                    ("WARC-Payload-Digest", some "sha1:AAA"),
                    ("WARC-Block-Digest", some "sha1:B1"),
                    ("Content-Length", some "10")],
    http_headers := some [("Content-Type", some "text/html")],
    payload := some [10, 11] }

/-- A response whose payload digest is `sha1:BBB`. -/
def respB : WarcRecord :=
  { rec_headers := [("WARC-Type", some "response"),
                    ("WARC-Record-ID", some "<urn:uuid:0002>"),
                    ("WARC-Date", some "2019-06-22T02:00:00Z"),
                    ("WARC-Target-URI", some "http://example.com/2"),
                    ("WARC-Payload-Digest", some "sha1:BBB"),
                    ("WARC-Block-Digest", some "sha1:B2"),
                    ("Content-Length", some "20")],
    http_headers := some [("Content-Type", some "text/html")],
    payload := some [20, 21] }

/-- A later response repeating payload digest `sha1:AAA` at another URI. -/
def respA2 : WarcRecord :=
  { rec_headers := [("WARC-Type", some "response"),
                    ("WARC-Record-ID", some "<urn:uuid:0003>"),
                    ("WARC-Date", some "2019-06-22T03:00:00Z"),
                    ("WARC-Target-URI", some "http://example.com/3"),
                    ("WARC-Payload-Digest", some "sha1:AAA"),
                    ("WARC-Block-Digest", some "sha1:B1"),
                    ("Content-Length", some "10")],
    http_headers := some [("Content-Type", some "text/html")],
    payload := some [10, 11] }

/-- A response record with no `WARC-Payload-Digest` header at all. -/
def respNoDigest1 : WarcRecord :=
  { rec_headers := [("WARC-Type", some "response"),
                    ("WARC-Record-ID", some "<urn:uuid:0004>"),
                    ("WARC-Date", some "2019-06-22T04:00:00Z"),
                    ("WARC-Target-URI", some "http://example.com/4")],
    http_headers := some [("Content-Type", some "text/html")],
    payload := some [40, 41] }

/-- A second digest-less response with a different payload. -/
def respNoDigest2 : WarcRecord :=
  { rec_headers := [("WARC-Type", some "response"),
                    ("WARC-Record-ID", some "<urn:uuid:0005>"),
                    ("WARC-Date", some "2019-06-22T05:00:00Z"),
                    ("WARC-Target-URI", some "http://example.com/5")],
    http_headers := some [("Content-Type", some "text/html")],
    payload := some [50, 51] }

/-- A warcinfo record. -/
def warcinfoRec : WarcRecord :=
  { rec_headers := [("WARC-Type", some "warcinfo"),
                    ("WARC-Record-ID", some "<urn:uuid:0006>"),
                    ("WARC-Date", some "2019-06-22T00:00:00Z"),
                    ("WARC-Filename", some "old-name.warc.gz")],
    http_headers := none,
    payload := some [60] }

/-- A warcinfo record carrying a bracket-wrapped target URI. -/
def warcinfoBracket : WarcRecord :=
  { rec_headers := [("WARC-Type", some "warcinfo"),
                    ("WARC-Record-ID", some "<urn:uuid:0007>"),
                    ("WARC-Date", some "2019-06-22T00:00:00Z"),
                    ("WARC-Target-URI", some "<http://example.com/e>"),
                    ("WARC-Filename", some "old-name.warc.gz")],
    http_headers := none,
    payload := some [70] }

/-- A record whose target URI starts with `'<'` but never closes the bracket. -/
def badBracketRec : WarcRecord :=
  { rec_headers := [("WARC-Type", some "response"),
                    ("WARC-Record-ID", some "<urn:uuid:0008>"),
                    ("WARC-Date", some "2019-06-22T08:00:00Z"),
                    ("WARC-Target-URI", some "<http://example.com/8"),
                    ("WARC-Payload-Digest", some "sha1:CCC")],
    http_headers := some [("Content-Type", some "text/html")],
    payload := some [80] }

/- ### Claim evidence -/

/-- C1: the claim says a response with no `WARC-Payload-Digest` is never
indexed and never converted.  The code violates this: `digest` is Python
`None` for such records and `None` is a valid dict key, so the first
digest-less response is indexed under the missing digest and the second
digest-less response (here with a different payload) is rewritten into a
revisit.  This theorem evaluates the pass at that failing input. -/
theorem missing_digest_response_gets_converted :
    digestOf respNoDigest1 = none ∧ digestOf respNoDigest2 = none ∧
    (digestsAfter "sketch-deduplicated.warc.gz" [] [respNoDigest1]).map
      (fun ds => digestsMem ds none) = some true ∧
    (process "sketch-deduplicated.warc.gz" [respNoDigest1, respNoDigest2]).2 = true ∧
    ((process "sketch-deduplicated.warc.gz" [respNoDigest1, respNoDigest2]).1.get? 1).map
      (fun w => get_header w.rec_headers "WARC-Type") = some (some "revisit") := by
  refine ⟨rfl, rfl, rfl, rfl, rfl⟩

/-- C4 counterexample: the unwrap is not idempotent as claimed: `"<<a>>"`
unwraps (greedy match) to `"<a>"`, and unwrapping a second time gives
`"a"`, so applying the unwrap twice differs from applying it once. -/
theorem uri_unwrap_claim_counterexample :
    unwrap_url "<<a>>" = some "<a>" ∧
    (unwrap_url "<<a>>").bind unwrap_url = some "a" ∧
    (unwrap_url "<<a>>").bind unwrap_url ≠ unwrap_url "<<a>>" := by
  refine ⟨rfl, rfl, ?_⟩
  decide

/-- C4 (amended): a value not starting with `'<'` is returned unchanged; a
value of the form `'<' ++ s ++ '>'` with `s` nonempty and newline-free is
returned with the outer brackets removed (greedy match); and applying the
unwrap twice yields the same result as once whenever the once-unwrapped
value does not itself start with `'<'` (nested wrapping such as `"<<a>>"`
is unwrapped again, and a value starting with `'<'` that does not match
the pattern raises instead of being returned). -/
theorem uri_unwrap_amended :
    (∀ u : String, startsLT u = false → unwrap_url u = some u) ∧
    (∀ cs : List Char, cs ≠ [] → '\n' ∉ cs →
      unwrap_url (String.mk ('<' :: (cs ++ ['>']))) = some (String.mk cs)) ∧
    (∀ u v : String, unwrap_url u = some v → startsLT v = false →
      (unwrap_url u).bind unwrap_url = unwrap_url u) := by
  refine ⟨?_, ?_, ?_⟩
  · intro u h
    simp [unwrap_url, h]
  · intro cs h1 h2
    have hstart : startsLT (String.mk ('<' :: (cs ++ ['>']))) = true := rfl
    have hgrp : reWrapGroup (String.mk ('<' :: (cs ++ ['>']))) = some (String.mk cs) := by
      unfold reWrapGroup
      simp only [List.getLast?_concat, List.dropLast_concat]
      rw [if_pos ⟨trivial, h1, h2⟩]
    simp [unwrap_url, hstart, hgrp]
  · intro u v h hv
    rw [h]
    show (unwrap_url v) = some v
    simp [unwrap_url, hv]

/-- C4 amended, witnessed at concrete inputs. -/
theorem uri_unwrap_amended_witness :
    unwrap_url "plain" = some "plain" ∧
    unwrap_url (String.mk ('<' :: (['u'] ++ ['>']))) = some (String.mk ['u']) ∧
    (unwrap_url "<u>").bind unwrap_url = unwrap_url "<u>" :=
  ⟨uri_unwrap_amended.1 "plain" (by decide),
   uri_unwrap_amended.2.1 ['u'] (by decide) (by decide),
   uri_unwrap_amended.2.2 "<u>" "u" (by decide) (by decide)⟩

/-- C5: whenever the pass runs to completion, the number of records
written to the output equals the number of records read: each loop
iteration hands exactly one record to `write_record`. -/
theorem record_count_preserved (ofn : String) (rs : List WarcRecord)
    (h : (process ofn rs).2 = true) :
    (process ofn rs).1.length = rs.length :=
  processFrom_length ofn rs [] h

/-- C5 witnessed on a three-record input containing a duplicate digest. -/
theorem record_count_preserved_witness :
    (process "sketch-deduplicated.warc.gz" [respA1, respB, respA2]).2 = true ∧
    (process "sketch-deduplicated.warc.gz" [respA1, respB, respA2]).1.length
      = [respA1, respB, respA2].length :=
  ⟨by decide, record_count_preserved "sketch-deduplicated.warc.gz" [respA1, respB, respA2] (by decide)⟩

/-- C6: a record whose `WARC-Type` is not `response` (warcinfo, request,
metadata, revisit, anything else) never reads the digest index and leaves
it unchanged: the record written is the one the empty index would produce,
and the resulting index is the input index itself. -/
theorem nonresponse_leaves_index_unchanged (ofn : String) (r : WarcRecord)
    (h : isResponse r = false) (ds : Digests) :
    processRecord ofn ds r = (processRecord ofn [] r).map (fun p => (p.1, ds)) := by
  cases hu : unwrapRecord r with
  | none => simp [processRecord, hu]
  | some r0 =>
    have hr0 : isResponse r0 = false := (unwrapRecord_isResponse r r0 hu).trans h
    by_cases hwi : get_header r0.rec_headers "WARC-Type" = some "warcinfo"
    · simp [processRecord, hu, hr0, hwi]
    · simp [processRecord, hu, hr0, hwi]

/-- C6 witnessed on a warcinfo record and a nonempty index. -/
theorem nonresponse_leaves_index_unchanged_witness :
    processRecord "sketch-deduplicated.warc.gz"
        [(some "sha1:AAA", (some "<urn:uuid:0001>", some "2019-06-22T01:00:00Z",
          some "http://example.com/1"))] warcinfoRec
      = (processRecord "sketch-deduplicated.warc.gz" [] warcinfoRec).map
          (fun p => (p.1,
            [(some "sha1:AAA", (some "<urn:uuid:0001>", some "2019-06-22T01:00:00Z",
              some "http://example.com/1"))])) :=
  nonresponse_leaves_index_unchanged "sketch-deduplicated.warc.gz" warcinfoRec (by decide) _

/- ### Aborting on a malformed bracketed URI -/

theorem processFrom_append_abort (ofn : String) (bad : WarcRecord)
    (hbad : unwrapRecord bad = none) (rest : List WarcRecord) :
    ∀ (pre : List WarcRecord) (ds : Digests),
      (processFrom ofn ds pre).2 = true →
        processFrom ofn ds (pre ++ bad :: rest) = ((processFrom ofn ds pre).1, false) := by
  intro pre
  induction pre with
  | nil =>
    intro ds _
    have hfail : processRecord ofn ds bad = none := by
      simp [processRecord, hbad]
    rw [List.nil_append, processFrom_cons_fail ofn ds bad rest hfail]
    rfl
  | cons r0 pre' ih =>
    intro ds hok
    cases hpr : processRecord ofn ds r0 with
    | none =>
      rw [processFrom_cons_fail ofn ds r0 pre' hpr] at hok
      cases hok
    | some p =>
      have hcons := processFrom_cons ofn ds r0 pre' p.1 p.2 (by rw [hpr])
      rw [hcons] at hok
      rw [List.cons_append,
        processFrom_cons ofn ds r0 (pre' ++ bad :: rest) p.1 p.2 (by rw [hpr]),
        ih p.2 hok, hcons]

/-- C10: a record whose `WARC-Target-URI` starts with `'<'` but does not
match `^<(.+)>$` makes `re.search(...).group(1)` raise an uncaught
`AttributeError`: the records before it are the only ones written, the
offending record and every record after it are not written, and the pass
does not complete. -/
theorem malformed_bracket_uri_aborts_pass (ofn : String)
    (pre rest : List WarcRecord) (bad : WarcRecord) (url : String)
    (hok : (process ofn pre).2 = true)
    (huri : get_header bad.rec_headers "WARC-Target-URI" = some url)
    (hlt : startsLT url = true) (hgrp : reWrapGroup url = none) :
    process ofn (pre ++ bad :: rest) = ((process ofn pre).1, false) :=
  processFrom_append_abort ofn bad
    (unwrapRecord_fails_of_bad_uri bad url huri hlt hgrp) rest pre [] hok

/-- C10 witnessed: one good record, then a record with URI
`"<http://example.com/8"`, then another good record. -/
theorem malformed_bracket_uri_aborts_pass_witness :
    process "sketch-deduplicated.warc.gz" ([respA1] ++ badBracketRec :: [respB])
      = ((process "sketch-deduplicated.warc.gz" [respA1]).1, false) :=
  malformed_bracket_uri_aborts_pass "sketch-deduplicated.warc.gz" [respA1] [respB]
    badBracketRec "<http://example.com/8" (by decide) (by decide) (by decide) (by decide)

/-- C2: first-occurrence invariant.  For a response record carrying digest
`d` at position `i` of a completed pass over well-formed records, the
record written at position `i` is typed `response` when no earlier
response carries `d` and `revisit` otherwise; so of the N response records
with digest `d`, exactly the first in file order is emitted as a response
and the other N-1 as revisits. -/
theorem dedup_first_occurrence_invariant (ofn : String) (rs : List WarcRecord)
    (hok : (process ofn rs).2 = true)
    (hwf : ∀ r ∈ rs, NoDupNames r.rec_headers)
    (i : Nat) (r : WarcRecord) (d : String)
    (hget : rs.get? i = some r)
    (hresp : isResponse r = true)
    (hdig : digestOf r = some d) :
    ∃ w, (process ofn rs).1.get? i = some w ∧
      get_header w.rec_headers "WARC-Type" =
        (if seenDigest (rs.take i) (some d) = true
          then some "revisit" else some "response") := by
  obtain ⟨dsi, w, dsi', h1, h2, h3, _⟩ := processFrom_index ofn rs [] hok i r hget
  refine ⟨w, h3, ?_⟩
  have hnd : NoDupNames r.rec_headers := hwf r (List.get?_mem hget)
  have htype := processRecord_response_type ofn dsi r w dsi' h2 hnd hresp
  have hmem : digestsMem dsi (digestOf r) = seenDigest (rs.take i) (digestOf r) := by
    have hm := digestsAfter_mem ofn (rs.take i) [] dsi h1 (digestOf r)
    simpa [digestsMem] using hm
  rw [htype, hmem, hdig]

/-- C2 witnessed on the digests `[A, B, A]` scenario at position 2. -/
theorem dedup_first_occurrence_invariant_witness :
    ∃ w, (process "sketch-deduplicated.warc.gz" [respA1, respB, respA2]).1.get? 2 = some w ∧
      get_header w.rec_headers "WARC-Type" =
        (if seenDigest ([respA1, respB, respA2].take 2) (some "sha1:AAA") = true
          then some "revisit" else some "response") :=
  dedup_first_occurrence_invariant "sketch-deduplicated.warc.gz" [respA1, respB, respA2]
    (by decide) (by decide) 2 respA2 "sha1:AAA" (by decide) (by decide) (by decide)

/-- C7: the pass is an order-preserving single forward pass: on a
completed run the output has one record per input record, and the record
written at position `i` is exactly the rewrite of the input record at
position `i` under the digest-index state reached after the first `i`
records — no reordering and no whole-file buffering. -/
theorem output_order_preserved (ofn : String) (rs : List WarcRecord)
    (h : (process ofn rs).2 = true) :
    (process ofn rs).1.length = rs.length ∧
    ∀ (i : Nat) (r : WarcRecord), rs.get? i = some r →
      ∃ dsi w dsi', digestsAfter ofn [] (rs.take i) = some dsi ∧
        processRecord ofn dsi r = some (w, dsi') ∧
        (process ofn rs).1.get? i = some w ∧
        digestsAfter ofn [] (rs.take (i + 1)) = some dsi' :=
  ⟨processFrom_length ofn rs [] h, processFrom_index ofn rs [] h⟩

/-- C7 witnessed at position 1 of a two-record input. -/
theorem output_order_preserved_witness :
    ∃ dsi w dsi',
      digestsAfter "sketch-deduplicated.warc.gz" [] ([respA1, respA2].take 1) = some dsi ∧
      processRecord "sketch-deduplicated.warc.gz" dsi respA2 = some (w, dsi') ∧
      (process "sketch-deduplicated.warc.gz" [respA1, respA2]).1.get? 1 = some w ∧
      digestsAfter "sketch-deduplicated.warc.gz" [] ([respA1, respA2].take 2) = some dsi' :=
  (output_order_preserved "sketch-deduplicated.warc.gz" [respA1, respA2] (by decide)).2
    1 respA2 (by decide)

/-- C8 counterexample: the claim says a warcinfo record is written with
every header other than `WARC-Filename` unchanged, but the target-URI
unwrap of lines 207-211 applies to warcinfo records too: a warcinfo record
whose `WARC-Target-URI` is `"<http://example.com/e>"` is written with that
header changed to `"http://example.com/e"`. -/
theorem warcinfo_unwrap_counterexample :
    get_header warcinfoBracket.rec_headers "WARC-Target-URI"
      = some "<http://example.com/e>" ∧
    (processRecord "sketch-deduplicated.warc.gz" [] warcinfoBracket).map
        (fun p => get_header p.1.rec_headers "WARC-Target-URI")
      = some (some "http://example.com/e") :=
  ⟨rfl, rfl⟩

/-- C8 (amended): for every warcinfo record the pass rewrites
`WARC-Filename` to the output file's name and applies the same target-URI
unwrapping it applies to every record; every other header, the HTTP header
block and the payload are written unchanged, and the digest index is
untouched. -/
theorem warcinfo_rewrite_amended (ofn : String) (ds : Digests) (r w : WarcRecord)
    (ds' : Digests)
    (hnd : NoDupNames r.rec_headers)
    (htype : get_header r.rec_headers "WARC-Type" = some "warcinfo")
    (h : processRecord ofn ds r = some (w, ds')) :
    ds' = ds ∧
    get_header w.rec_headers "WARC-Filename" = some ofn ∧
    (∀ m : String, m.lowerName ≠ "warc-filename" → m.lowerName ≠ "warc-target-uri" →
      get_header w.rec_headers m = get_header r.rec_headers m) ∧
    w.payload = r.payload ∧ w.http_headers = r.http_headers := by
  obtain ⟨r0, hunwrap, hcase⟩ := processRecord_cases ofn ds r w ds' h
  have hresp : isResponse r = false := by simp [isResponse, htype]
  have htype0 : get_header r0.rec_headers "WARC-Type" = some "warcinfo" := by
    rw [unwrapRecord_get_ne r r0 hunwrap "WARC-Type" (by decide), htype]
  have hnd0 : NoDupNames r0.rec_headers := unwrapRecord_nodup r r0 hunwrap hnd
  obtain ⟨hpay0, http0⟩ := unwrapRecord_payload r r0 hunwrap
  rcases hcase with ⟨htrue, _⟩ | ⟨_, hds, hsub⟩
  · rw [unwrapRecord_isResponse r r0 hunwrap, hresp] at htrue
    cases htrue
  · rcases hsub with ⟨_, hw⟩ | ⟨hcon, _⟩
    · refine ⟨hds, ?_, ?_, ?_, ?_⟩
      · rw [hw]
        exact get_replace_self r0.rec_headers "WARC-Filename" (some ofn)
          "WARC-Filename" rfl hnd0
      · intro m hm1 hm2
        rw [hw]
        show get_header (replace_header r0.rec_headers "WARC-Filename" (some ofn)) m
          = get_header r.rec_headers m
        rw [get_replace_ne r0.rec_headers "WARC-Filename" (some ofn) m
            (by rw [show ("WARC-Filename").lowerName = "warc-filename" from rfl]; exact hm1),
          unwrapRecord_get_ne r r0 hunwrap m hm2]
      · rw [hw]
        exact hpay0
      · rw [hw]
        exact http0
    · exact absurd htype0 hcon

/-- The record the pass writes for `warcinfoRec`. -/
def warcinfoOut : WarcRecord :=
  { rec_headers := [("WARC-Type", some "warcinfo"),
                    ("WARC-Record-ID", some "<urn:uuid:0006>"),
                    ("WARC-Date", some "2019-06-22T00:00:00Z"),
                    ("WARC-Filename", some "sketch-deduplicated.warc.gz")],
    http_headers := none,
    payload := some [60] }

/-- C8 amended, witnessed on a concrete warcinfo record. -/
theorem warcinfo_rewrite_amended_witness :
    get_header warcinfoOut.rec_headers "WARC-Filename"
      = some "sketch-deduplicated.warc.gz" ∧
    get_header warcinfoOut.rec_headers "WARC-Record-ID"
      = get_header warcinfoRec.rec_headers "WARC-Record-ID" ∧
    warcinfoOut.payload = warcinfoRec.payload :=
  have T := warcinfo_rewrite_amended "sketch-deduplicated.warc.gz" [] warcinfoRec
    warcinfoOut [] (by decide) (by decide) rfl
  ⟨T.2.1, T.2.2.1 "WARC-Record-ID" (by decide) (by decide), T.2.2.2.1⟩

/-- C9 counterexample: the claim says the constructed revisit carries a
freshly generated `WARC-Record-ID` distinct from the original response's.
In fact the second response with digest `sha1:AAA` is converted to a
revisit that still carries that response's own id `<urn:uuid:0003>`:
`create_warc_record` is handed the original header set via `warc_headers`
and generates no fresh id. -/
theorem revisit_reuses_record_id_counterexample :
    ((process "sketch-deduplicated.warc.gz" [respA1, respA2]).1.get? 1).map
        (fun w => get_header w.rec_headers "WARC-Type") = some (some "revisit") ∧
    ((process "sketch-deduplicated.warc.gz" [respA1, respA2]).1.get? 1).map
        (fun w => get_header w.rec_headers "WARC-Record-ID")
      = some (some "<urn:uuid:0003>") ∧
    get_header respA2.rec_headers "WARC-Record-ID" = some "<urn:uuid:0003>" :=
  ⟨rfl, rfl, rfl⟩

/-- C9 (amended): every revisit record constructed by the pass keeps the
original response record's own `WARC-Record-ID` (no fresh id is
generated), and its `WARC-Date` is the original response's own capture
date, not the date of the indexed first occurrence (which goes to
`WARC-Refers-To-Date` only). -/
theorem revisit_id_and_date_from_original (r : WarcRecord) (dup : HVal × HVal × HVal) :
    get_header (record_response_to_revisit r dup).rec_headers "WARC-Record-ID"
      = get_header r.rec_headers "WARC-Record-ID" ∧
    get_header (record_response_to_revisit r dup).rec_headers "WARC-Date"
      = get_header r.rec_headers "WARC-Date" := by
  constructor <;>
    simp +decide [record_response_to_revisit, get_replace_ne, get_remove_ne]

/-- Taking a longer front segment does not change an earlier position. -/
theorem take_get?_of_lt {α : Type} :
    ∀ (i j : Nat) (l : List α), j < i → (l.take i).get? j = l.get? j := by
  intro i
  induction i with
  | zero =>
    intro j l h
    cases h
  | succ n ih =>
    intro j l h
    cases l with
    | nil => simp
    | cons a t =>
      rw [List.take_succ_cons]
      cases j with
      | zero => rfl
      | succ m =>
        rw [List.get?_cons_succ, List.get?_cons_succ]
        exact ih m t (Nat.lt_of_succ_lt_succ h)

/-- A list's `find?` returns the element at position `j` when it satisfies
the predicate and nothing before it does. -/
theorem find?_eq_of_first {α : Type} (p : α → Bool) :
    ∀ (j : Nat) (l : List α) (x : α),
      l.get? j = some x → p x = true → (l.take j).any p = false →
        l.find? p = some x := by
  intro j
  induction j with
  | zero =>
    intro l x hget hpx _
    cases l with
    | nil => cases hget
    | cons y t =>
      rw [List.get?_cons_zero] at hget
      cases hget
      exact List.find?_cons_of_pos t hpx
  | succ n ih =>
    intro l x hget hpx hany
    cases l with
    | nil => cases hget
    | cons y t =>
      rw [List.get?_cons_succ] at hget
      rw [List.take_succ_cons] at hany
      have h2 : p y = false ∧ (t.take n).any p = false := by
        simp only [List.any_cons, Bool.or_eq_false_iff] at hany
        exact hany
      rw [List.find?_cons_of_neg t (by simp [h2.1])]
      exact ih t x hget hpx h2.2

/-- C3: revisit correctness.  In a completed pass over well-formed records,
when the response at position `i` repeats the digest `d` of the response at
position `j`, and `j` is the first position carrying `d`, the record
written at `i` is a revisit whose `WARC-Refers-To`,
`WARC-Refers-To-Date` and `WARC-Refers-To-Target-URI` are exactly the
`WARC-Record-ID`, `WARC-Date` and `WARC-Target-URI` of the retained
response written at `j`; it carries `WARC-Type` `revisit`,
`WARC-Truncated` `length`, the identical-payload-digest `WARC-Profile`,
and no `WARC-Block-Digest` or `Content-Length` header. -/
theorem revisit_refers_to_retained_response (ofn : String) (rs : List WarcRecord)
    (hok : (process ofn rs).2 = true)
    (hwf : ∀ r ∈ rs, NoDupNames r.rec_headers)
    (i j : Nat) (ri rj : WarcRecord) (d : String)
    (hij : j < i)
    (hgi : rs.get? i = some ri) (hgj : rs.get? j = some rj)
    (hrespi : isResponse ri = true) (hdi : digestOf ri = some d)
    (hrespj : isResponse rj = true) (hdj : digestOf rj = some d)
    (hfirst : seenDigest (rs.take j) (some d) = false) :
    ∃ wi wj, (process ofn rs).1.get? i = some wi ∧
      (process ofn rs).1.get? j = some wj ∧
      get_header wi.rec_headers "WARC-Refers-To"
        = get_header wj.rec_headers "WARC-Record-ID" ∧
      get_header wi.rec_headers "WARC-Refers-To-Date"
        = get_header wj.rec_headers "WARC-Date" ∧
      get_header wi.rec_headers "WARC-Refers-To-Target-URI"
        = get_header wj.rec_headers "WARC-Target-URI" ∧
      get_header wi.rec_headers "WARC-Type" = some "revisit" ∧
      get_header wi.rec_headers "WARC-Truncated" = some "length" ∧
      get_header wi.rec_headers "WARC-Profile"
        = some "http://netpreserve.org/warc/1.0/revisit/identical-payload-digest" ∧
      get_header wi.rec_headers "WARC-Block-Digest" = none ∧
      get_header wi.rec_headers "Content-Length" = none := by
  obtain ⟨dsj, wj, dsj', hj1, hj2, hj3, _⟩ := processFrom_index ofn rs [] hok j rj hgj
  obtain ⟨dsi, wi, dsi', hi1, hi2, hi3, _⟩ := processFrom_index ofn rs [] hok i ri hgi
  have hmemj : digestsMem dsj (some d) = false := by
    have hm := digestsAfter_mem ofn (rs.take j) [] dsj hj1 (some d)
    simpa [digestsMem, hfirst] using hm
  have hgetj : digestsGet dsj (some d) = none :=
    (digestsGet_eq_none_iff dsj (some d)).mpr hmemj
  obtain ⟨r0j, hunwj, hcasej⟩ := processRecord_cases ofn dsj rj wj dsj' hj2
  have hrespj0 : isResponse r0j = true := (unwrapRecord_isResponse rj r0j hunwj).trans hrespj
  have hdj0 : digestOf r0j = some d := (unwrapRecord_digestOf rj r0j hunwj).trans hdj
  have hwj : wj = r0j := by
    rcases hcasej with ⟨_, hsub⟩ | ⟨hfalse, _, _⟩
    · rcases hsub with ⟨dup, hdup, _, _⟩ | ⟨_, hw, _⟩
      · rw [hdj0, hgetj] at hdup
        cases hdup
      · exact hw
    · rw [hrespj0] at hfalse
      cases hfalse
  have hgi_entry : digestsGet dsi (some d) = some (digestEntry r0j) := by
    have hnew := digestsAfter_get_new ofn (rs.take i) [] dsi hi1 (some d) rfl
    have hfind : firstResponseWith (rs.take i) (some d) = some rj := by
      unfold firstResponseWith
      apply find?_eq_of_first _ j (rs.take i) rj
      · exact (take_get?_of_lt i j rs hij).trans hgj
      · simp [hrespj, hdj]
      · rw [List.take_take, min_eq_left (le_of_lt hij)]
        exact hfirst
    obtain ⟨r0, hun0, hget0⟩ := hnew.2 rj hfind
    rw [hunwj] at hun0
    cases hun0
    exact hget0
  obtain ⟨r0i, hunwi, hcasei⟩ := processRecord_cases ofn dsi ri wi dsi' hi2
  have hrespi0 : isResponse r0i = true := (unwrapRecord_isResponse ri r0i hunwi).trans hrespi
  have hdi0 : digestOf r0i = some d := (unwrapRecord_digestOf ri r0i hunwi).trans hdi
  have hwi : wi = record_response_to_revisit r0i (digestEntry r0j) := by
    rcases hcasei with ⟨_, hsub⟩ | ⟨hfalse, _, _⟩
    · rcases hsub with ⟨dup, hdup, hw, _⟩ | ⟨hdup, _, _⟩
      · rw [hdi0, hgi_entry] at hdup
        cases hdup
        exact hw
      · rw [hdi0, hgi_entry] at hdup
        cases hdup
    · rw [hrespi0] at hfalse
      cases hfalse
  have hnd0i : NoDupNames r0i.rec_headers :=
    unwrapRecord_nodup ri r0i hunwi (hwf ri (List.get?_mem hgi))
  obtain ⟨e1, e2, e3, e4, e5, e6, e7, e8⟩ := revisit_headers r0i (digestEntry r0j) hnd0i
  refine ⟨wi, wj, hi3, hj3, ?_, ?_, ?_, ?_, ?_, ?_, ?_, ?_⟩
  · rw [hwi, e1, hwj]
    rfl
  · rw [hwi, e2, hwj]
    rfl
  · rw [hwi, e3, hwj]
    rfl
  · rw [hwi]
    exact e4
  · rw [hwi]
    exact e5
  · rw [hwi]
    exact e6
  · rw [hwi]
    exact e7
  · rw [hwi]
    exact e8

/-- C3 witnessed on the digests `[A, B, A]` scenario: the revisit at
position 2 refers to the retained response at position 0. -/
theorem revisit_refers_to_retained_response_witness :
    ∃ wi wj,
      (process "sketch-deduplicated.warc.gz" [respA1, respB, respA2]).1.get? 2 = some wi ∧
      (process "sketch-deduplicated.warc.gz" [respA1, respB, respA2]).1.get? 0 = some wj ∧
      get_header wi.rec_headers "WARC-Refers-To"
        = get_header wj.rec_headers "WARC-Record-ID" ∧
      get_header wi.rec_headers "WARC-Refers-To-Date"
        = get_header wj.rec_headers "WARC-Date" ∧
      get_header wi.rec_headers "WARC-Refers-To-Target-URI"
        = get_header wj.rec_headers "WARC-Target-URI" ∧
      get_header wi.rec_headers "WARC-Type" = some "revisit" ∧
      get_header wi.rec_headers "WARC-Truncated" = some "length" ∧
      get_header wi.rec_headers "WARC-Profile"
        = some "http://netpreserve.org/warc/1.0/revisit/identical-payload-digest" ∧
      get_header wi.rec_headers "WARC-Block-Digest" = none ∧
      get_header wi.rec_headers "Content-Length" = none :=
  revisit_refers_to_retained_response "sketch-deduplicated.warc.gz"
    [respA1, respB, respA2] (by decide) (by decide) 2 0 respA2 respA1 "sha1:AAA"
    (by decide) (by decide) (by decide) (by decide) (by decide) (by decide) (by decide)
    (by decide)
